import Mathlib

/-!
Verification development for the layout reconstruction engine of the
Nemnok_Converto repository (src/app.js).

The JavaScript code is shallowly embedded in Lean 4.  JavaScript numbers
are modelled as exact rationals (ℚ): the embedded algorithms use only
addition, subtraction, multiplication, division by two, absolute value,
minimum/maximum and order comparisons, all of which are exact on ℚ, so no
claim under consideration depends on floating-point rounding.  JavaScript
strings are modelled as lists of characters.  Array.prototype.sort with a
numeric-key comparator is modelled by a stable insertion sort on the same
key, matching the stable sort semantics guaranteed by ECMAScript.

Sections, in order: shared constants and record types; text normalization
and line assembly (normalizePdfText, buildLineText); the regular
expression tests used by the quarter-table fallback, specialised to the
three concrete patterns appearing in the code; coordinate clustering
(clusterValues) together with two auxiliary formulations used to settle
the claims about it; the quarter-table fallback (detectQuarterTable); the
transform tracker (extractLineSegments); and table detection
(detectTables) with the free-text line grouping that follows it in
buildPageHtml.
-/

-- ══════════════════════════════════════════════════════════════
--  Shared constants and record types (src/app.js lines 375-380, 711)
-- ══════════════════════════════════════════════════════════════

/-- Tolerance in PDF points for coordinate clustering and snapping
(src/app.js line 376: const EPS = 3). -/
def EPS : ℚ := 3

/-- Tolerance for merging edge segment gaps
(src/app.js line 378: const EDGE_EPS = 6). -/
def EDGE_EPS : ℚ := 6

/-- Horizontal gap threshold for inserting a space between glyph runs
(src/app.js line 711: const LINE_GAP = 2). -/
def LINE_GAP : ℚ := 2

/-- near(a, b) from src/app.js line 380. -/
def near (a b : ℚ) : Prop := |a - b| ≤ EPS

instance : DecidablePred fun p : ℚ × ℚ => near p.1 p.2 := fun _ => by
  unfold near; infer_instance

instance nearDec (a b : ℚ) : Decidable (near a b) := by unfold near; infer_instance

/-- One positioned glyph record, as produced by extractPage
(src/app.js lines 277-284): str, x, y (top), w, h. -/
structure Item where
  str : List Char
  x : ℚ
  y : ℚ
  w : ℚ
  h : ℚ
deriving DecidableEq, Repr

/-- One absolute line segment produced by the transform tracker
(src/app.js line 342: push of x0, y0, x1, y1). -/
structure Seg where
  x0 : ℚ
  y0 : ℚ
  x1 : ℚ
  y1 : ℚ
deriving DecidableEq, Repr

/-- One assembled text line from groupIntoLines (src/app.js lines 697,
704): anchor y and member items. -/
structure QLine where
  y : ℚ
  items : List Item
deriving DecidableEq, Repr

-- ══════════════════════════════════════════════════════════════
--  Text normalization and line assembly (src/app.js lines 693-745)
-- ══════════════════════════════════════════════════════════════

/-- Character class of the JavaScript regular expression \s
(ECMAScript WhiteSpace and LineTerminator code points), used by the
replace(\s+, one space) and trim() steps of the embedded code. -/
def isWsChar (c : Char) : Bool :=
  c == ' ' || c == '\t' || c == '\n' || c == '\r' ||
  c.toNat == 11 || c.toNat == 12 || c.toNat == 0xA0 || c.toNat == 0x1680 ||
  (0x2000 ≤ c.toNat && c.toNat ≤ 0x200A) ||
  c.toNat == 0x2028 || c.toNat == 0x2029 || c.toNat == 0x202F ||
  c.toNat == 0x205F || c.toNat == 0x3000 || c.toNat == 0xFEFF

/-- Character class [\u0000-\u0008\u000B\u000C\u000E-\u001F] replaced by a
space in normalizePdfText (src/app.js line 738). -/
def isCtrlChar (c : Char) : Bool :=
  c.toNat ≤ 8 || c.toNat == 11 || c.toNat == 12 ||
  (14 ≤ c.toNat && c.toNat ≤ 31)

/-- Replace each maximal run of whitespace by a single space: the
replace(\s+ global, one space) step.  The Boolean flag records whether the
previous character belonged to a run already collapsed. -/
def collapseWsGo : Bool → List Char → List Char
  | _, [] => []
  | inRun, c :: cs =>
    if isWsChar c then
      if inRun then collapseWsGo true cs
      else ' ' :: collapseWsGo true cs
    else c :: collapseWsGo false cs

/-- Collapse whitespace runs to single spaces. -/
def collapseWs (s : List Char) : List Char := collapseWsGo false s

/-- The String.prototype.trim step: drop whitespace from both ends. -/
def trimWs (s : List Char) : List Char :=
  ((s.dropWhile isWsChar).reverse.dropWhile isWsChar).reverse

/-- normalizePdfText from src/app.js lines 736-741: control characters
become spaces, whitespace runs collapse to one space, ends are trimmed. -/
def normalizePdfText (s : List Char) : List Char :=
  trimWs (collapseWs (s.map fun c => if isCtrlChar c then ' ' else c))

/-- Stable sort of items by ascending x, the [...items].sort by x
comparator used in buildLineText and detectQuarterTable. -/
def sortByX (items : List Item) : List Item :=
  List.insertionSort (fun a b => a.x ≤ b.x) items

/-- Loop body of buildLineText (src/app.js lines 716-732): accumulate
text, skipping empty normalized values, inserting a space when the
horizontal gap from the previous kept item exceeds LINE_GAP. -/
def buildLineTextGo : List Item → List Char → Option Item → List Char
  | [], text, _ => text
  | it :: rest, text, prev =>
    let value := normalizePdfText it.str
    if value = [] then buildLineTextGo rest text prev
    else
      let text' :=
        if text = [] then text ++ value
        else
          let gap : ℚ := match prev with
            | some p => it.x - (p.x + p.w)
            | none => LINE_GAP + 1
          if LINE_GAP < gap then text ++ [' '] ++ value else text ++ value
      buildLineTextGo rest text' (some it)

/-- buildLineText from src/app.js lines 713-734. -/
def buildLineText (items : List Item) : List Char :=
  trimWs (collapseWs (buildLineTextGo (sortByX items) [] none))

/-- Comparator of the sort by (y, x) in groupIntoLines
(src/app.js line 695: a.y - b.y or a.x - b.x). -/
def ltYX (a b : Item) : Prop := a.y < b.y ∨ (a.y = b.y ∧ a.x ≤ b.x)

instance ltYXDec : DecidableRel ltYX := fun _ _ => by unfold ltYX; infer_instance

/-- Loop body of groupIntoLines (src/app.js lines 699-707): extend the
current line while the glyph y stays within EPS of the line anchor y,
otherwise start a new line. -/
def groupIntoLinesGo : List Item → QLine → List QLine → List QLine
  | [], cur, acc => acc ++ [cur]
  | it :: rest, cur, acc =>
    if |it.y - cur.y| ≤ EPS then
      groupIntoLinesGo rest ⟨cur.y, cur.items ++ [it]⟩ acc
    else
      groupIntoLinesGo rest ⟨it.y, [it]⟩ (acc ++ [cur])

/-- groupIntoLines from src/app.js lines 693-709. -/
def groupIntoLines (items : List Item) : List QLine :=
  match List.insertionSort ltYX items with
  | [] => []
  | it :: rest => groupIntoLinesGo rest ⟨it.y, [it]⟩ []

-- ══════════════════════════════════════════════════════════════
--  Regular expression tests of the quarter-table fallback
--  (src/app.js lines 560-561, 575, 598)
-- ══════════════════════════════════════════════════════════════

/-- Word character class \w of JavaScript regular expressions without the
unicode flag: ASCII letters, digits and underscore. -/
def isWordChar (c : Char) : Bool :=
  (('A' ≤ c && c ≤ 'Z') || ('a' ≤ c && c ≤ 'z') ||
   ('0' ≤ c && c ≤ '9') || c == '_')

/-- ASCII uppercase map; the strings compared case-insensitively by the
embedded code (quarter labels, the Importes keyword and regex literals)
are all ASCII, for which toUpperCase is exactly this map. -/
def toUpperChar (c : Char) : Char :=
  if 'a' ≤ c ∧ c ≤ 'z' then Char.ofNat (c.toNat - 32) else c

/-- Case-insensitive character comparison, used to model the i flag. -/
def charEqCI (a b : Char) : Bool := toUpperChar a == toUpperChar b

/-- Case-insensitive list comparison at the start of a string. -/
def startsWithCI : List Char → List Char → Bool
  | [], _ => true
  | _ :: _, [] => false
  | t :: ts, c :: cs => charEqCI t c && startsWithCI ts cs

/-- Find the leftmost occurrence of a word-bounded token (both boundaries
of \b), case-insensitively.  The first argument tracks the character just
before the current position (none at the string start).  On success
return the character just before the remainder and the remainder after
the token.  All tokens used begin and end with word characters, so the
boundary \b on each side reduces to the adjacent outer character being
absent or not a word character. -/
def findWordTokenCI (tok : List Char) : Option Char → List Char → Option (Option Char × List Char)
  | _, [] => none
  | prev, c :: rest =>
    if ((match prev with
          | none => true
          | some p => !isWordChar p) &&
        startsWithCI tok (c :: rest) &&
        (match List.drop tok.length (c :: rest) with
          | [] => true
          | d :: _ => !isWordChar d)) then
      some (((c :: rest).take tok.length).getLast?, List.drop tok.length (c :: rest))
    else findWordTokenCI tok (some c) rest

/-- Match a sequence of word-bounded tokens in order with arbitrary gaps:
the shape of the pattern 1T any 2T any 3T any 4T any Total.  Taking the
leftmost occurrence of each token in turn is complete for this pattern
shape, because a later occurrence of a token only shrinks the remainder
available to the following tokens. -/
def hasTokenChain : List (List Char) → Option Char → List Char → Bool
  | [], _, _ => true
  | tok :: toks, prev, s =>
    match findWordTokenCI tok prev s with
    | none => false
    | some (p', s') => hasTokenChain toks p' s'

/-- QUARTER_LABELS from src/app.js line 573. -/
def QUARTER_LABELS : List (List Char) :=
  ["1T".data, "2T".data, "3T".data, "4T".data, "Total".data]

/-- The QUARTER_HEADER regular expression test of src/app.js line 575:
word-bounded 1T, 2T, 3T, 4T, Total in order, case-insensitive. -/
def quarterHeaderTest (s : List Char) : Bool :=
  hasTokenChain QUARTER_LABELS none s

/-- The importes-line test of src/app.js line 598: the regular expression
matching the string start, then importes case-insensitively, then \b. -/
def importesTest (s : List Char) : Bool :=
  startsWithCI "importes".data s &&
  (match List.drop ("importes".data).length s with
    | [] => true
    | d :: _ => !isWordChar d)

/-- ASCII digit test, the class \d. -/
def isDigitChar (c : Char) : Bool := ('0' ≤ c && c ≤ '9')

/-- Consume the group part of the EUROPEAN_NUMBER_REGEX greedily: each
group is a dot followed by exactly three digits.  Greedy consumption is
equivalent to the backtracking semantics here, because after the groups
only a comma part or the string end may follow, and a group always starts
with a dot. -/
def euroGroups : List Char → List Char
  | '.' :: a :: b :: c :: rest =>
    if isDigitChar a && isDigitChar b && isDigitChar c then euroGroups rest
    else '.' :: a :: b :: c :: rest
  | s => s

/-- Match the optional decimal tail of the EUROPEAN_NUMBER_REGEX: either
the string end, or a comma followed by one or more digits up to the end. -/
def euroTail : List Char → Bool
  | [] => true
  | ',' :: rest => decide (rest ≠ []) && rest.all isDigitChar
  | _ => false

/-- Match the regular expression body after the optional sign: one to
three digits, then thousand groups, then the optional decimal tail, then
the end.  Leading runs of four or more digits fail under backtracking as
well, because neither a group nor the tail nor the end can start with a
digit. -/
def euroBody (s : List Char) : Bool :=
  let ds := s.takeWhile isDigitChar
  decide (1 ≤ ds.length ∧ ds.length ≤ 3) &&
  euroTail (euroGroups (s.dropWhile isDigitChar))

/-- isEuropeanNumber from src/app.js lines 560-561: full-string match of
an optional minus, 1-3 digits, dot-separated 3-digit groups and an
optional comma decimal part, applied to the trimmed string. -/
def isEuropeanNumber (s : List Char) : Bool :=
  match trimWs s with
  | '-' :: rest => euroBody rest
  | t => euroBody t

-- ══════════════════════════════════════════════════════════════
--  Coordinate clustering (src/app.js lines 382-394)
-- ══════════════════════════════════════════════════════════════

/-- Ascending numeric sort, the [...vals].sort by numeric comparator. -/
def sortQ (vals : List ℚ) : List ℚ := List.insertionSort (· ≤ ·) vals

/-- Loop body of clusterValues (src/app.js lines 386-392).  The cluster
list is kept reversed, so the head of the accumulator is the cluster the
code writes at index length - 1.  A value starts a new cluster when it
exceeds the current cluster value by more than eps, and otherwise the
cluster value is replaced by the average of itself and the value.  The
empty-accumulator case never arises because clusterValues seeds the
accumulator with the first sorted value. -/
def clusterGo (eps : ℚ) : List ℚ → List ℚ → List ℚ
  | [], acc => acc.reverse
  | v :: vs, acc =>
    match acc with
    | [] => clusterGo eps vs [v]
    | c :: cs =>
      if eps < v - c then clusterGo eps vs (v :: c :: cs)
      else clusterGo eps vs ((c + v) / 2 :: cs)

/-- clusterValues from src/app.js lines 382-394. -/
def clusterValues (vals : List ℚ) (eps : ℚ) : List ℚ :=
  match sortQ vals with
  | [] => []
  | v :: vs => clusterGo eps vs [v]

/-- One step of the clustering loop written in direct (unreversed) form:
append a new cluster when the value exceeds the last cluster value by
more than eps, otherwise replace the last cluster value by the average of
itself and the value.  Used to state the corrected description of
clusterValues. -/
def clusterStepPW (eps : ℚ) (acc : List ℚ) (v : ℚ) : List ℚ :=
  match acc.getLast? with
  | none => [v]
  | some c => if eps < v - c then acc ++ [v] else acc.dropLast ++ [(c + v) / 2]

/-- Direct fold formulation of the pairwise-average clustering. -/
def clusterValuesPW (vals : List ℚ) (eps : ℚ) : List ℚ :=
  (sortQ vals).foldl (clusterStepPW eps) []

/-- Modelled from the spec: the running-average clustering the spec
describes for clusterValues, in which a cluster keeps its full member
list, a new cluster starts when the next value exceeds the running
average of the current cluster members by more than the tolerance, and
the reported centroid of a cluster is the mean of all its members.  The
code of clusterValues does not keep member lists; this definition exists
to compare the spec wording against the code. -/
def clusterValuesSpecRA (vals : List ℚ) (eps : ℚ) : List ℚ :=
  let mean : List ℚ → ℚ := fun l => l.sum / l.length
  let step : List (List ℚ) → ℚ → List (List ℚ) := fun acc v =>
    match acc.getLast? with
    | none => [[v]]
    | some c => if eps < v - mean c then acc ++ [[v]]
                else acc.dropLast ++ [c ++ [v]]
  (((sortQ vals).foldl step []).map mean)

/-- Instrumented variant of clusterGo that also records, for every value
folded into a cluster, the pair of the value and the cluster value it was
averaged with.  Its first component agrees with clusterGo. -/
def clusterGoT (eps : ℚ) : List ℚ → List ℚ → List (ℚ × ℚ) → List ℚ × List (ℚ × ℚ)
  | [], acc, tr => (acc.reverse, tr)
  | v :: vs, acc, tr =>
    match acc with
    | [] => clusterGoT eps vs [v] tr
    | c :: cs =>
      if eps < v - c then clusterGoT eps vs (v :: c :: cs) tr
      else clusterGoT eps vs ((c + v) / 2 :: cs) ((v, c) :: tr)

/-- clusterValues together with its fold trace: the first component is
the cluster list, the second lists every (value, cluster value at fold
time) pair produced while clustering. -/
def clusterValuesT (vals : List ℚ) (eps : ℚ) : List ℚ × List (ℚ × ℚ) :=
  match sortQ vals with
  | [] => ([], [])
  | v :: vs => clusterGoT eps vs [v] []

-- ══════════════════════════════════════════════════════════════
--  Quarterly amounts table fallback (src/app.js lines 563-623)
-- ══════════════════════════════════════════════════════════════

/-- Result record of detectQuarterTable (src/app.js line 620). -/
structure QResult where
  headerIdx : ℕ
  importesIdx : ℕ
  values : List (List Char)
  colMidX : List (Option ℚ)
deriving DecidableEq, Repr

/-- ASCII uppercase of a string, for the toUpperCase comparisons. -/
def upperCI (s : List Char) : List Char := s.map toUpperChar

/-- The label lookup of src/app.js lines 581-587: for each quarter label,
the first item of the x-sorted header line whose normalized text equals
the label up to case, mapped to its horizontal midpoint. -/
def headerColMidX (items : List Item) : List (Option ℚ) :=
  QUARTER_LABELS.map fun lab =>
    ((sortByX items).find? fun it =>
        upperCI (normalizePdfText it.str) == upperCI lab).map
      fun it => it.x + it.w / 2

/-- Nearest-column loop of src/app.js lines 610-616: scan the candidate
column midpoints in index order, skipping unresolved columns, keeping the
first column of strictly smallest distance to the given midpoint. -/
def bestColumnGo (m : ℚ) : List (Option ℚ) → ℕ → Option (ℕ × ℚ) → Option (ℕ × ℚ)
  | [], _, best => best
  | none :: cols, c, best => bestColumnGo m cols (c + 1) best
  | some x :: cols, c, best =>
    let d := |m - x|
    match best with
    | none => bestColumnGo m cols (c + 1) (some (c, d))
    | some (bi, bd) =>
      if d < bd then bestColumnGo m cols (c + 1) (some (c, d))
      else bestColumnGo m cols (c + 1) (some (bi, bd))

/-- Index of the resolved header column nearest to midpoint m, none when
no column is resolved (the bestIdx stays -1 case). -/
def bestColumn (cols : List (Option ℚ)) (m : ℚ) : Option ℕ :=
  (bestColumnGo m cols 0 none).map Prod.fst

/-- One iteration of the value-assignment loop of src/app.js lines
608-618: write the numeric item into its nearest resolved column. -/
def assignStepQ (cols : List (Option ℚ)) (vals : List (List Char)) (it : Item) :
    List (List Char) :=
  match bestColumn cols (it.x + it.w / 2) with
  | some c => vals.set c (normalizePdfText it.str)
  | none => vals

/-- Value-assignment loop of src/app.js lines 607-618: starting from five
empty strings, write each numeric item into its nearest resolved column,
later items overwriting earlier ones in the same column. -/
def assignValues (cols : List (Option ℚ)) (nums : List Item) : List (List Char) :=
  nums.foldl (assignStepQ cols) [[], [], [], [], []]

/-- The j-loop of src/app.js line 594: first line at index at least j
whose assembled text is non-empty. -/
def firstNonEmptyLine : List QLine → ℕ → Option (ℕ × QLine)
  | [], _ => none
  | l :: ls, j =>
    if buildLineText l.items = [] then firstNonEmptyLine ls (j + 1)
    else some (j, l)

/-- Checks at one candidate header line (src/app.js lines 577-620); any
failed check makes the outer loop continue with the next line. -/
def tryQuarterAt (line : QLine) (rest : List QLine) (i : ℕ) : Option QResult :=
  if ¬ quarterHeaderTest (buildLineText line.items) = true then none
  else
    let colMidX := headerColMidX line.items
    if (colMidX.filter Option.isSome).length < 2 then none
    else
      match firstNonEmptyLine rest (i + 1) with
      | none => none
      | some (j, vline) =>
        if ¬ importesTest (buildLineText vline.items) = true then none
        else
          let numericItems := vline.items.filter
            fun it => isEuropeanNumber (normalizePdfText it.str)
          if numericItems = [] then none
          else some ⟨i, j, assignValues colMidX numericItems, colMidX⟩

/-- Outer line loop of detectQuarterTable (src/app.js line 576). -/
def detectQuarterTableGo : List QLine → ℕ → Option QResult
  | [], _ => none
  | l :: ls, i =>
    match tryQuarterAt l ls i with
    | some r => some r
    | none => detectQuarterTableGo ls (i + 1)

/-- detectQuarterTable from src/app.js lines 574-623. -/
def detectQuarterTable (lines : List QLine) : Option QResult :=
  detectQuarterTableGo lines 0

-- ══════════════════════════════════════════════════════════════
--  Transform tracker (src/app.js lines 296-369)
-- ══════════════════════════════════════════════════════════════

/-- A 2 by 3 affine matrix in the PDF convention [a, b, c, d, e, f],
the ctm array of extractLineSegments. -/
structure Mat where
  a : ℚ
  b : ℚ
  c : ℚ
  d : ℚ
  e : ℚ
  f : ℚ
deriving DecidableEq, Repr

/-- The identity matrix [1, 0, 0, 1, 0, 0] (src/app.js line 301). -/
def Mat.id : Mat := ⟨1, 0, 0, 1, 0, 0⟩

/-- Matrix composition exactly as computed in the transform case of
src/app.js lines 324-331: the result of applying g first, then m.  This
is the product of the 3 by 3 homogeneous matrices m times g. -/
def matMul (m g : Mat) : Mat :=
  ⟨m.a * g.a + m.c * g.b,
   m.b * g.a + m.d * g.b,
   m.a * g.c + m.c * g.d,
   m.b * g.c + m.d * g.d,
   m.a * g.e + m.c * g.f + m.e,
   m.b * g.e + m.d * g.f + m.f⟩

/-- Product of a list of matrices in order, starting from the identity. -/
def matProd (gs : List Mat) : Mat := gs.foldl matMul Mat.id

/-- transformPoint from src/app.js lines 306-309: apply the current
matrix, then flip the vertical axis against the page height. -/
def transformPoint (m : Mat) (pageH x y : ℚ) : ℚ × ℚ :=
  (m.a * x + m.c * y + m.e, pageH - (m.b * x + m.d * y + m.f))

/-- The vector instruction alphabet handled by extractLineSegments
(src/app.js lines 315-366); unknown stands for every operator the switch
ignores. -/
inductive Instr where
  | save : Instr
  | restore : Instr
  | transform : Mat → Instr
  | moveTo : ℚ → ℚ → Instr
  | lineTo : ℚ → ℚ → Instr
  | rectangle : ℚ → ℚ → ℚ → ℚ → Instr
  | closePath : Instr
  | unknown : Instr
deriving DecidableEq, Repr

/-- Interpreter state of extractLineSegments: current point, subpath
start point, current matrix, matrix stack and emitted segments. -/
structure TState where
  cx : ℚ
  cy : ℚ
  mx : ℚ
  my : ℚ
  ctm : Mat
  stack : List Mat
  segs : List Seg
deriving DecidableEq, Repr

/-- The initial state of src/app.js lines 298-302. -/
def initState : TState := ⟨0, 0, 0, 0, Mat.id, [], []⟩

/-- One instruction of the switch in src/app.js lines 315-366. -/
def step (pageH : ℚ) (s : TState) (i : Instr) : TState :=
  match i with
  | .save => { s with stack := s.ctm :: s.stack }
  | .restore =>
    match s.stack with
    | [] => s
    | m :: rest => { s with ctm := m, stack := rest }
  | .transform g => { s with ctm := matMul s.ctm g }
  | .moveTo x y => { s with mx := x, my := y, cx := x, cy := y }
  | .lineTo x y =>
    let p0 := transformPoint s.ctm pageH s.cx s.cy
    let p1 := transformPoint s.ctm pageH x y
    { s with segs := s.segs ++ [⟨p0.1, p0.2, p1.1, p1.2⟩], cx := x, cy := y }
  | .rectangle x y w h =>
    let pa := transformPoint s.ctm pageH x y
    let pb := transformPoint s.ctm pageH (x + w) y
    let pd := transformPoint s.ctm pageH (x + w) (y + h)
    let pe := transformPoint s.ctm pageH x (y + h)
    { s with segs := s.segs ++
        [⟨pa.1, pa.2, pb.1, pb.2⟩, ⟨pb.1, pb.2, pd.1, pd.2⟩,
         ⟨pd.1, pd.2, pe.1, pe.2⟩, ⟨pe.1, pe.2, pa.1, pa.2⟩] }
  | .closePath =>
    let p0 := transformPoint s.ctm pageH s.cx s.cy
    let p1 := transformPoint s.ctm pageH s.mx s.my
    let s' :=
      if 1/2 < |p0.1 - p1.1| ∨ 1/2 < |p0.2 - p1.2| then
        { s with segs := s.segs ++ [⟨p0.1, p0.2, p1.1, p1.2⟩] }
      else s
    { s' with cx := s.mx, cy := s.my }
  | .unknown => s

/-- Run an instruction list from a state. -/
def runOps (pageH : ℚ) (ops : List Instr) (s : TState) : TState :=
  ops.foldl (step pageH) s

/-- extractLineSegments from src/app.js lines 297-369. -/
def extractLineSegments (ops : List Instr) (pageH : ℚ) : List Seg :=
  (runOps pageH ops initState).segs

-- ══════════════════════════════════════════════════════════════
--  Table detection (src/app.js lines 405-557) and the free-item
--  line grouping of buildPageHtml (src/app.js lines 643-654)
-- ══════════════════════════════════════════════════════════════

/-- Enumerate a list with indices starting at n, the forEach index. -/
def enumFrom {α : Type} : ℕ → List α → List (ℕ × α)
  | _, [] => []
  | n, a :: l => (n, a) :: enumFrom (n + 1) l

/-- An axis-aligned segment as stored in the hSegs and vSegs arrays of
detectTables (src/app.js lines 412, 414): interval [a, b] along the axis
and constant coordinate v on the other axis. -/
structure ISeg where
  a : ℚ
  b : ℚ
  v : ℚ
deriving DecidableEq, Repr

/-- Classification loop of src/app.js lines 410-416: horizontal segments
(y within EPS) first, otherwise vertical segments (x within EPS),
diagonal segments dropped. -/
def splitSegs (segments : List Seg) : List ISeg × List ISeg :=
  segments.foldl
    (fun ac s =>
      if near s.y0 s.y1 then
        (ac.1 ++ [⟨min s.x0 s.x1, max s.x0 s.x1, (s.y0 + s.y1) / 2⟩], ac.2)
      else if near s.x0 s.x1 then
        (ac.1, ac.2 ++ [⟨min s.y0 s.y1, max s.y0 s.y1, (s.x0 + s.x1) / 2⟩])
      else ac)
    ([], [])

/-- Stable sort of candidate segments by interval start, the sort by
a.a - b.a of src/app.js lines 456 and 462. -/
def sortByA (l : List ISeg) : List ISeg :=
  List.insertionSort (fun s t => s.a ≤ t.a) l

/-- Greedy frontier loop of edgeCovers (src/app.js lines 444-452). -/
def edgeCoversGo (b : ℚ) : List ISeg → ℚ → Bool
  | [], reached => decide (b - EDGE_EPS ≤ reached)
  | s :: rest, reached =>
    if reached + EDGE_EPS < s.a then false
    else
      let reached' := max reached s.b
      if b - EDGE_EPS ≤ reached' then true
      else edgeCoversGo b rest reached'

/-- edgeCovers from src/app.js lines 444-452: the sorted candidate
segments jointly cover [a, b] with no gap wider than EDGE_EPS. -/
def edgeCovers (cands : List ISeg) (a b : ℚ) : Bool :=
  edgeCoversGo b cands (a - EDGE_EPS)

/-- hasHEdge from src/app.js lines 453-458. -/
def hasHEdge (hSegs : List ISeg) (x0 x1 y : ℚ) : Bool :=
  edgeCovers
    (sortByA (hSegs.filter fun s =>
      decide (near s.v y) && decide (x0 - EDGE_EPS ≤ s.b) &&
      decide (s.a ≤ x1 + EDGE_EPS)))
    x0 x1

/-- hasVEdge from src/app.js lines 459-464. -/
def hasVEdge (vSegs : List ISeg) (y0 y1 x : ℚ) : Bool :=
  edgeCovers
    (sortByA (vSegs.filter fun s =>
      decide (near s.v x) && decide (y0 - EDGE_EPS ≤ s.b) &&
      decide (s.a ≤ y1 + EDGE_EPS)))
    y0 y1

/-- Cell presence test of src/app.js lines 471-480: all four bounding
edges of cell (r, c) of the grids are covered. -/
def presentCell (hSegs vSegs : List ISeg) (xg yg : List ℚ) (r c : ℕ) : Bool :=
  let x0 := xg.getD c 0
  let x1 := xg.getD (c + 1) 0
  let y0 := yg.getD r 0
  let y1 := yg.getD (r + 1) 0
  hasHEdge hSegs x0 x1 y0 && hasHEdge hSegs x0 x1 y1 &&
  hasVEdge vSegs y0 y1 x0 && hasVEdge vSegs y0 y1 x1

/-- Bounds test of the flood fill (src/app.js line 497). -/
def inGridRange (rows cols : ℕ) (p : ℤ × ℤ) : Prop :=
  0 ≤ p.1 ∧ p.1 < (rows : ℤ) ∧ 0 ≤ p.2 ∧ p.2 < (cols : ℤ)

instance inGridRangeDec (rows cols : ℕ) (p : ℤ × ℤ) :
    Decidable (inGridRange rows cols p) := by unfold inGridRange; infer_instance

/-- Neighbour offsets of src/app.js line 495, in source order. -/
def neighborsOf (p : ℤ × ℤ) : List (ℤ × ℤ) :=
  [(p.1, p.2 + 1), (p.1, p.2 - 1), (p.1 + 1, p.2), (p.1 - 1, p.2)]

/-- Neighbour handling of src/app.js lines 495-501: enqueue an in-range
present unvisited cell and mark it visited. -/
def pushNeighbor (present : ℤ × ℤ → Bool) (rows cols : ℕ)
    (st : List (ℤ × ℤ) × Finset (ℤ × ℤ)) (q : ℤ × ℤ) :
    List (ℤ × ℤ) × Finset (ℤ × ℤ) :=
  if inGridRange rows cols q ∧ present q = true ∧ q ∉ st.2 then
    (st.1 ++ [q], insert q st.2)
  else st

/-- Breadth-first worklist loop of src/app.js lines 492-503.  The fuel
argument bounds the number of dequeues; every enqueued cell is freshly
marked visited and lies in the rows by cols grid, so rows * cols + 1 fuel
is never exhausted before the queue empties. -/
def bfsGo (present : ℤ × ℤ → Bool) (rows cols : ℕ) :
    ℕ → List (ℤ × ℤ) → Finset (ℤ × ℤ) → List (ℤ × ℤ) →
    List (ℤ × ℤ) × Finset (ℤ × ℤ)
  | 0, _, visited, cells => (cells, visited)
  | _ + 1, [], visited, cells => (cells, visited)
  | fuel + 1, p :: queue, visited, cells =>
    let st := (neighborsOf p).foldl (pushNeighbor present rows cols) (queue, visited)
    bfsGo present rows cols fuel st.1 st.2 (cells ++ [p])

/-- One candidate seed of the region scan (src/app.js lines 486-505):
flood-fill an unvisited present cell and keep the region only when it has
at least two cells (src/app.js line 504); the visited set persists. -/
def floodStep (present : ℤ × ℤ → Bool) (rows cols : ℕ)
    (st : List (List (ℤ × ℤ)) × Finset (ℤ × ℤ)) (p : ℤ × ℤ) :
    List (List (ℤ × ℤ)) × Finset (ℤ × ℤ) :=
  if present p = true ∧ p ∉ st.2 then
    let bv := bfsGo present rows cols (rows * cols + 1) [p]
      (insert p st.2) []
    (if 2 ≤ bv.1.length then st.1 ++ [bv.1] else st.1, bv.2)
  else st

/-- Region scan of src/app.js lines 483-507: flood-fill every unvisited
present cell in row-major order, keeping only regions of at least two
cells. -/
def floodRegions (present : ℤ × ℤ → Bool) (rows cols : ℕ) :
    List (List (ℤ × ℤ)) :=
  (((List.range rows).flatMap fun r =>
      (List.range cols).map fun c => ((r : ℤ), (c : ℤ))).foldl
    (floodStep present rows cols) ([], ∅)).1

/-- A detected table (src/app.js line 553): outer bounds, the dense cell
grid of assigned items, and the row and column counts. -/
structure Table where
  top : ℚ
  left : ℚ
  bottom : ℚ
  right : ℚ
  grid : List (List (List Item))
  tRows : ℕ
  tCols : ℕ
deriving DecidableEq, Repr

/-- All items stored anywhere in the cell grid of a table. -/
def tableItems (t : Table) : List Item := t.grid.flatten.flatten

/-- Append an item to cell (r, c) of a nested grid, the push of
src/app.js line 545. -/
def setCell (g : List (List (List Item))) (r c : ℕ) (it : Item) :
    List (List (List Item)) :=
  g.set r ((g.getD r []).set c ((g.getD r []).getD c [] ++ [it]))

/-- Containment test of src/app.js lines 543-544: the midpoint lies in
cell (r, c) of the grids, within EPS. -/
def cellContains (xg yg : List ℚ) (r c : ℕ) (midX midY : ℚ) : Prop :=
  xg.getD c 0 - EPS ≤ midX ∧ midX ≤ xg.getD (c + 1) 0 + EPS ∧
  yg.getD r 0 - EPS ≤ midY ∧ midY ≤ yg.getD (r + 1) 0 + EPS

instance cellContainsDec (xg yg : List ℚ) (r c : ℕ) (midX midY : ℚ) :
    Decidable (cellContains xg yg r c midX midY) := by
  unfold cellContains; infer_instance

/-- The row-major cell scan of src/app.js lines 539-550: the first cell
of the bounding range containing the midpoint. -/
def findCell (xg yg : List ℚ) (rMin rMax cMin cMax : ℕ) (midX midY : ℚ) :
    Option (ℕ × ℕ) :=
  (((List.range (rMax + 1 - rMin)).flatMap fun dr =>
      (List.range (cMax + 1 - cMin)).map fun dc => (rMin + dr, cMin + dc)).find?
    fun rc => decide (cellContains xg yg rc.1 rc.2 midX midY))

/-- Per-item body of the forEach of src/app.js lines 531-551: skip items
already consumed, skip items whose midpoint lies outside the table
bounding box (within EPS), otherwise place the item into the first
containing cell and mark its index consumed. -/
def assignStep (xg yg : List ℚ) (rMin rMax cMin cMax : ℕ)
    (st : List (List (List Item)) × Finset ℕ) (p : ℕ × Item) :
    List (List (List Item)) × Finset ℕ :=
  if p.1 ∈ st.2 then st
  else
    let midX := p.2.x + p.2.w / 2
    let midY := p.2.y + p.2.h / 2
    if midX < xg.getD cMin 0 - EPS ∨ midX > xg.getD (cMax + 1) 0 + EPS ∨
       midY < yg.getD rMin 0 - EPS ∨ midY > yg.getD (rMax + 1) 0 + EPS then st
    else
      match findCell xg yg rMin rMax cMin cMax midX midY with
      | some rc => (setCell st.1 (rc.1 - rMin) (rc.2 - cMin) p.2, insert p.1 st.2)
      | none => st

/-- Bounding row and column range of a region, the Math.min and Math.max
of src/app.js lines 514-517, as (rMin, rMax, cMin, cMax). -/
def regionBounds (region : List (ℤ × ℤ)) : ℕ × ℕ × ℕ × ℕ :=
  let rs := region.map fun p => p.1.toNat
  let cs := region.map fun p => p.2.toNat
  (rs.foldl min (rs.headD 0), rs.foldl max (rs.headD 0),
   cs.foldl min (cs.headD 0), cs.foldl max (cs.headD 0))

/-- Materialize one region into a Table and extend the consumed-index
set, src/app.js lines 513-554. -/
def buildTable (xg yg : List ℚ) (textItems : List Item) (used : Finset ℕ)
    (region : List (ℤ × ℤ)) : Table × Finset ℕ :=
  let bnds := regionBounds region
  let rMin := bnds.1
  let rMax := bnds.2.1
  let cMin := bnds.2.2.1
  let cMax := bnds.2.2.2
  let tRows := rMax - rMin + 1
  let tCols := cMax - cMin + 1
  let grid0 := List.replicate tRows (List.replicate tCols ([] : List Item))
  let res := (enumFrom 0 textItems).foldl
    (assignStep xg yg rMin rMax cMin cMax) (grid0, used)
  (⟨yg.getD rMin 0, xg.getD cMin 0, yg.getD (rMax + 1) 0, xg.getD (cMax + 1) 0,
    res.1, tRows, tCols⟩, res.2)

/-- One iteration of the region loop of src/app.js lines 513-554. -/
def buildTablesStep (xg yg : List ℚ) (textItems : List Item)
    (ac : List Table × Finset ℕ) (region : List (ℤ × ℤ)) :
    List Table × Finset ℕ :=
  let tu := buildTable xg yg textItems ac.2 region
  (ac.1 ++ [tu.1], tu.2)

/-- The region loop of src/app.js lines 510-554, threading the shared
consumed-index set through the tables in discovery order. -/
def buildTables (xg yg : List ℚ) (textItems : List Item)
    (regions : List (List (ℤ × ℤ))) : List Table × Finset ℕ :=
  regions.foldl (buildTablesStep xg yg textItems) ([], ∅)

/-- Result record of detectTables (src/app.js lines 418, 429, 556). -/
structure DetectResult where
  tables : List Table
  usedTextIndices : Finset ℕ
  hSegsCount : ℕ
  vSegsCount : ℕ
  xGrid : List ℚ
  yGrid : List ℚ
deriving DecidableEq

/-- detectTables from src/app.js lines 406-557. -/
def detectTables (segments : List Seg) (textItems : List Item) : DetectResult :=
  let hv := splitSegs segments
  let hSegs := hv.1
  let vSegs := hv.2
  if hSegs.length < 2 ∨ vSegs.length < 2 then
    ⟨[], ∅, hSegs.length, vSegs.length, [], []⟩
  else
    let xGrid := clusterValues (vSegs.map ISeg.v) EPS
    let yGrid := clusterValues (hSegs.map ISeg.v) EPS
    if xGrid.length < 2 ∨ yGrid.length < 2 then
      ⟨[], ∅, hSegs.length, vSegs.length, xGrid, yGrid⟩
    else
      let rows := yGrid.length - 1
      let cols := xGrid.length - 1
      let present : ℤ × ℤ → Bool := fun p =>
        presentCell hSegs vSegs xGrid yGrid p.1.toNat p.2.toNat
      let regions := floodRegions present rows cols
      let tu := buildTables xGrid yGrid textItems regions
      ⟨tu.1, tu.2, hSegs.length, vSegs.length, xGrid, yGrid⟩

/-- The free-item filter of buildPageHtml (src/app.js line 644): items
whose index is not in the consumed set, in original order. -/
def freeItems (textItems : List Item) (used : Finset ℕ) : List Item :=
  ((enumFrom 0 textItems).filter fun p => decide (p.1 ∉ used)).map Prod.snd

/-- The text lines a page produces after table detection
(src/app.js lines 631-654): group the unconsumed items into lines. -/
def pageLines (segments : List Seg) (textItems : List Item) : List QLine :=
  groupIntoLines (freeItems textItems (detectTables segments textItems).usedTextIndices)

-- ══════════════════════════════════════════════════════════════
--  Concrete scenario inputs used by counterexamples and witnesses
-- ══════════════════════════════════════════════════════════════

/-- Header line of the C1 and C10 scenarios: the five quarter labels at
the column midpoints 100, 160, 220, 280, 360 (each item of width six
units per character, centred on its midpoint), matching test 3 of
src/scripts/test-quarter-table.mjs. -/
def c1HeaderLine : QLine :=
  ⟨10, [⟨"1T".data, 94, 10, 12, 12⟩, ⟨"2T".data, 154, 10, 12, 12⟩,
        ⟨"3T".data, 214, 10, 12, 12⟩, ⟨"4T".data, 274, 10, 12, 12⟩,
        ⟨"Total".data, 345, 10, 30, 12⟩]⟩

/-- Value line of the C1 scenario: the Importes label and four numbers
whose midpoints are 100, 220, 280 and 360; the 2T column midpoint 160 has
no number. -/
def c1ImportesLine : QLine :=
  ⟨20, [⟨"Importes".data, 16, 20, 48, 12⟩,
        ⟨"6.357,63".data, 76, 20, 48, 12⟩,
        ⟨"6.816,40".data, 196, 20, 48, 12⟩,
        ⟨"6.626,67".data, 256, 20, 48, 12⟩,
        ⟨"26.202,82".data, 333, 20, 54, 12⟩]⟩

/-- The two-line page of the C1 scenario. -/
def c1Lines : List QLine := [c1HeaderLine, c1ImportesLine]

/-- Value line of the C10 scenario: two numbers at midpoints 95 and 105,
both nearest to the 1T column midpoint 100. -/
def c10ImportesLine : QLine :=
  ⟨20, [⟨"Importes".data, 16, 20, 48, 12⟩,
        ⟨"111,11".data, 77, 20, 36, 12⟩,
        ⟨"222,22".data, 87, 20, 36, 12⟩]⟩

/-- The two-line page of the C10 scenario. -/
def c10Lines : List QLine := [c1HeaderLine, c10ImportesLine]

/-- Four segments forming one ruled unit square: a single present cell
for the C7 scenario. -/
def c7SquareSegs : List Seg :=
  [⟨0, 0, 10, 0⟩, ⟨0, 10, 10, 10⟩, ⟨0, 0, 0, 10⟩, ⟨10, 0, 10, 10⟩]

/-- Segments of the C6 scenario: a ruled one-row, two-column table with
cells [0,10] x [0,10] and [10,20] x [0,10]. -/
def c6Segs : List Seg :=
  [⟨0, 0, 20, 0⟩, ⟨0, 10, 20, 10⟩, ⟨0, 0, 0, 10⟩, ⟨10, 0, 10, 10⟩,
   ⟨20, 0, 20, 10⟩]

/-- Glyph inside the first table cell of the C6 scenario. -/
def c6Item1 : Item := ⟨"A".data, 4, 4, 2, 2⟩

/-- Free glyph far below the table of the C6 scenario. -/
def c6Item2 : Item := ⟨"Z".data, 100, 100, 2, 2⟩

/-- Item list of the C6 scenario. -/
def c6Items : List Item := [c6Item1, c6Item2]

-- ══════════════════════════════════════════════════════════════
--  Helper lemmas
-- ══════════════════════════════════════════════════════════════

theorem matMul_assoc (x y z : Mat) :
    matMul (matMul x y) z = matMul x (matMul y z) := by
  simp only [matMul, Mat.mk.injEq]
  refine ⟨by ring, by ring, by ring, by ring, by ring, by ring⟩

theorem matMul_id_left (g : Mat) : matMul Mat.id g = g := by
  simp only [matMul, Mat.id]
  cases g
  simp

theorem matMul_id_right (g : Mat) : matMul g Mat.id = g := by
  simp only [matMul, Mat.id]
  cases g
  simp [Mat.mk.injEq]

theorem foldl_matMul_assoc (l : List Mat) :
    ∀ (a b : Mat), l.foldl matMul (matMul a b) = matMul a (l.foldl matMul b) := by
  induction l with
  | nil => intro a b; simp
  | cons g gs ih =>
    intro a b
    simp only [List.foldl_cons]
    rw [matMul_assoc, ih]

theorem runOps_transform_ctm (pageH : ℚ) :
    ∀ (gs : List Mat) (s : TState),
      (runOps pageH (gs.map Instr.transform) s).ctm = matMul s.ctm (matProd gs) := by
  intro gs
  induction gs with
  | nil => intro s; simp [runOps, matProd, matMul_id_right]
  | cons g gs ih =>
    intro s
    have h1 : runOps pageH ((g :: gs).map Instr.transform) s
        = runOps pageH (gs.map Instr.transform) (step pageH s (Instr.transform g)) := by
      simp [runOps]
    rw [h1, ih]
    have h2 : (step pageH s (Instr.transform g)).ctm = matMul s.ctm g := rfl
    rw [h2]
    have h3 : matProd (g :: gs) = matMul g (matProd gs) := by
      show gs.foldl matMul (matMul Mat.id g) = matMul g (matProd gs)
      rw [matMul_id_left, matProd]
      have : g = matMul g Mat.id := (matMul_id_right g).symm
      rw [show gs.foldl matMul g = gs.foldl matMul (matMul g Mat.id) by rw [matMul_id_right],
        foldl_matMul_assoc]
    rw [h3, matMul_assoc]

theorem step_stack_suffix (pageH : ℚ) (s : TState) (i : Instr) (base : List Mat)
    (hsuf : base <:+ s.stack)
    (hlen : base.length ≤ (step pageH s i).stack.length) :
    base <:+ (step pageH s i).stack := by
  cases i with
  | save => exact hsuf.trans (List.suffix_cons _ _)
  | restore =>
    rcases hst : s.stack with _ | ⟨m, st⟩
    · have h1 : step pageH s Instr.restore = s := by
        simp [step, hst]
      rw [h1]
      exact hsuf
    · rw [hst] at hsuf
      rcases List.suffix_cons_iff.mp hsuf with h | h
      · exfalso
        have h1 : (step pageH s Instr.restore).stack = st := by simp [step, hst]
        rw [h1] at hlen
        rw [h] at hlen
        simp at hlen
      · have h1 : (step pageH s Instr.restore).stack = st := by simp [step, hst]
        rw [h1]
        exact h
  | transform g => exact hsuf
  | moveTo x y => exact hsuf
  | lineTo x y => exact hsuf
  | rectangle x y w h => exact hsuf
  | closePath =>
    have : (step pageH s Instr.closePath).stack = s.stack := by
      simp only [step]
      split <;> rfl
    rw [this]
    exact hsuf
  | unknown => exact hsuf

theorem runOps_stack_suffix (pageH : ℚ) :
    ∀ (body : List Instr) (s : TState) (base : List Mat),
      base <:+ s.stack →
      (∀ p, p <+: body → base.length ≤ (runOps pageH p s).stack.length) →
      base <:+ (runOps pageH body s).stack := by
  intro body
  induction body with
  | nil => intro s base h _; simpa [runOps] using h
  | cons i rest ih =>
    intro s base hsuf hall
    have h1 : base.length ≤ (step pageH s i).stack.length := by
      have := hall [i] ⟨rest, rfl⟩
      simpa [runOps] using this
    have hsuf' := step_stack_suffix pageH s i base hsuf h1
    have hrw : runOps pageH (i :: rest) s = runOps pageH rest (step pageH s i) := by
      simp [runOps]
    rw [hrw]
    refine ih (step pageH s i) base hsuf' ?_
    intro p hp
    obtain ⟨t, ht⟩ := hp
    have := hall (i :: p) ⟨t, by rw [← ht]; rfl⟩
    simpa [runOps] using this

theorem suffix_eq_of_length_eq {α : Type} {l1 l2 : List α}
    (h : l1 <:+ l2) (hl : l1.length = l2.length) : l1 = l2 := by
  obtain ⟨t, ht⟩ := h
  have : t.length + l1.length = l2.length := by
    rw [← ht]; simp
  have ht0 : t = [] := by
    have : t.length = 0 := by omega
    exact List.length_eq_zero.mp this
  rw [ht0] at ht
  simpa using ht

-- ══════════════════════════════════════════════════════════════
--  Claims C2, C5, C9: the transform tracker
-- ══════════════════════════════════════════════════════════════

/-- C2: for every sequence of transform instructions the combined current
transform matrix equals the product of the individual matrices in
instruction order (from any starting matrix, hence in particular from the
identity start), and a restore whose matching save pushed a snapshot
restores exactly that snapshot, including under nesting: whenever the
instructions between a save and the next point keep the stack strictly
above its pre-save depth and return it to exactly one above, the restore
executed there restores the saved matrix and the saved stack. -/
theorem c2_transform_composition_save_restore (pageH : ℚ) :
    (∀ (s : TState) (gs : List Mat),
        (runOps pageH (gs.map Instr.transform) s).ctm = matMul s.ctm (matProd gs)) ∧
    (∀ gs : List Mat,
        (runOps pageH (gs.map Instr.transform) initState).ctm = matProd gs) ∧
    (∀ (s : TState) (body : List Instr),
        (∀ p, p <+: body →
          s.stack.length + 1 ≤ (runOps pageH p (step pageH s Instr.save)).stack.length) →
        (runOps pageH body (step pageH s Instr.save)).stack.length = s.stack.length + 1 →
        (step pageH (runOps pageH body (step pageH s Instr.save)) Instr.restore).ctm = s.ctm ∧
        (step pageH (runOps pageH body (step pageH s Instr.save)) Instr.restore).stack = s.stack) := by
  refine ⟨fun s gs => runOps_transform_ctm pageH gs s, ?_, ?_⟩
  · intro gs
    rw [runOps_transform_ctm pageH gs initState]
    show matMul Mat.id (matProd gs) = matProd gs
    exact matMul_id_left _
  · intro s body hdepth hend
    have hbase : (s.ctm :: s.stack) <:+ (step pageH s Instr.save).stack := by
      have : (step pageH s Instr.save).stack = s.ctm :: s.stack := rfl
      rw [this]
    have hsuf := runOps_stack_suffix pageH body (step pageH s Instr.save)
      (s.ctm :: s.stack) hbase
      (fun p hp => by simpa using hdepth p hp)
    set t := runOps pageH body (step pageH s Instr.save) with ht
    have hstack : t.stack = s.ctm :: s.stack := by
      refine (suffix_eq_of_length_eq hsuf ?_).symm
      simp [hend]
    constructor
    · simp [step, hstack]
    · simp [step, hstack]

/-- Witness for C2 at a concrete transform list and an empty save body. -/
theorem c2_transform_composition_save_restore_witness :
    ((runOps 0 ([⟨2, 0, 0, 2, 5, 7⟩].map Instr.transform) initState).ctm
        = matMul initState.ctm (matProd [⟨2, 0, 0, 2, 5, 7⟩])) ∧
    ((step 0 (runOps 0 [] (step 0 initState Instr.save)) Instr.restore).ctm = initState.ctm ∧
     (step 0 (runOps 0 [] (step 0 initState Instr.save)) Instr.restore).stack = initState.stack) := by
  refine ⟨(c2_transform_composition_save_restore 0).1 initState [⟨2, 0, 0, 2, 5, 7⟩], ?_⟩
  refine (c2_transform_composition_save_restore 0).2.2 initState [] ?_ ?_
  · intro p hp
    rw [List.prefix_nil.mp hp]
    simp [runOps, step, initState]
  · simp [runOps, step, initState]

/-- C9: a restore instruction executed with an empty save stack leaves
the state unchanged: same matrix, same stack, no emitted segment, no
error (step is total). -/
theorem c9_restore_empty_noop (pageH : ℚ) (s : TState) (h : s.stack = []) :
    step pageH s Instr.restore = s := by
  cases s with
  | mk cx cy mx my ctm stack segs =>
    simp only at h
    subst h
    rfl

/-- Witness for C9 at the initial state. -/
theorem c9_restore_empty_noop_witness :
    step 0 initState Instr.restore = initState :=
  c9_restore_empty_noop 0 initState rfl

/-- Counterexample for C5: a closePath whose transformed current point
and subpath-start point are at Euclidean distance greater than 0.5 (their
squared distance exceeds one quarter) while each coordinate difference
stays at most 0.5, so the code emits no segment even though the distance
between the two points exceeds 0.5 units.  The current point is still
reset to the subpath start. -/
theorem c5_counterexample :
    (step 0 ⟨2/5, -2/5, 0, 0, Mat.id, [], []⟩ Instr.closePath).segs = [] ∧
    (step 0 ⟨2/5, -2/5, 0, 0, Mat.id, [], []⟩ Instr.closePath).cx = 0 ∧
    (step 0 ⟨2/5, -2/5, 0, 0, Mat.id, [], []⟩ Instr.closePath).cy = 0 ∧
    ((transformPoint Mat.id 0 (2/5) (-2/5)).1 - (transformPoint Mat.id 0 0 0).1) ^ 2 +
      ((transformPoint Mat.id 0 (2/5) (-2/5)).2 - (transformPoint Mat.id 0 0 0).2) ^ 2
      > (1/2) ^ 2 := by
  have habs : |(2/5 : ℚ)| = 2/5 := abs_of_pos (by norm_num)
  have hstep : step 0 ⟨2/5, -2/5, 0, 0, Mat.id, [], []⟩ Instr.closePath
      = ⟨0, 0, 0, 0, Mat.id, [], []⟩ := by
    simp only [step]
    have hc :
        ¬ ((1:ℚ)/2 < |(transformPoint Mat.id 0 (2/5) (-2/5)).1
              - (transformPoint Mat.id 0 0 0).1| ∨
           (1:ℚ)/2 < |(transformPoint Mat.id 0 (2/5) (-2/5)).2
              - (transformPoint Mat.id 0 0 0).2|) := by
      simp [transformPoint, Mat.id]
      norm_num
      rw [habs]
      norm_num
    rw [if_neg hc]
  refine ⟨?_, ?_, ?_, ?_⟩
  · rw [hstep]
  · rw [hstep]
  · rw [hstep]
  · simp [transformPoint, Mat.id]
    norm_num

/-- C5 as corrected: a closePath instruction emits the segment from the
transformed current point back to the transformed subpath-start point
exactly when one of the two coordinate differences exceeds 0.5 in
absolute value (the Chebyshev distance exceeds 0.5, not the Euclidean
distance), and in every case it resets the current point to the
subpath-start point. -/
theorem c5_closepath_chebyshev (pageH : ℚ) (s : TState) :
    ((step pageH s Instr.closePath).segs =
      if 1/2 < |(transformPoint s.ctm pageH s.cx s.cy).1
                  - (transformPoint s.ctm pageH s.mx s.my).1| ∨
         1/2 < |(transformPoint s.ctm pageH s.cx s.cy).2
                  - (transformPoint s.ctm pageH s.mx s.my).2|
      then s.segs ++ [⟨(transformPoint s.ctm pageH s.cx s.cy).1,
                      (transformPoint s.ctm pageH s.cx s.cy).2,
                      (transformPoint s.ctm pageH s.mx s.my).1,
                      (transformPoint s.ctm pageH s.mx s.my).2⟩]
      else s.segs) ∧
    ((step pageH s Instr.closePath).segs ≠ s.segs ↔
      (1/2 < |(transformPoint s.ctm pageH s.cx s.cy).1
                - (transformPoint s.ctm pageH s.mx s.my).1| ∨
       1/2 < |(transformPoint s.ctm pageH s.cx s.cy).2
                - (transformPoint s.ctm pageH s.mx s.my).2|)) ∧
    (step pageH s Instr.closePath).cx = s.mx ∧
    (step pageH s Instr.closePath).cy = s.my := by
  have hne : ∀ (l : List Seg) (x : Seg), l ++ [x] ≠ l := by
    intro l x h
    have := congrArg List.length h
    simp at this
  refine ⟨?_, ?_, ?_, ?_⟩
  · simp only [step]
    split
    · next h => simp [h]
    · next h => simp [h]
  · simp only [step]
    split
    · next h => exact iff_of_true (hne _ _) h
    · next h => exact iff_of_false (fun hh => hh rfl) h
  · rfl
  · rfl

-- ══════════════════════════════════════════════════════════════
--  Claims C3, C4, C8: coordinate clustering
-- ══════════════════════════════════════════════════════════════

theorem sortQ_perm_eq {l1 l2 : List ℚ} (h : l1.Perm l2) : sortQ l1 = sortQ l2 :=
  List.eq_of_perm_of_sorted
    (((List.perm_insertionSort _ l1).trans h).trans
      (List.perm_insertionSort _ l2).symm)
    (List.sorted_insertionSort _ l1) (List.sorted_insertionSort _ l2)

theorem clusterGoT_fst (eps : ℚ) :
    ∀ (vs acc : List ℚ) (tr : List (ℚ × ℚ)),
      (clusterGoT eps vs acc tr).1 = clusterGo eps vs acc := by
  intro vs
  induction vs with
  | nil => intro acc tr; rfl
  | cons v vs ih =>
    intro acc tr
    cases acc with
    | nil => simpa [clusterGoT, clusterGo] using ih [v] tr
    | cons c cs =>
      by_cases h : eps < v - c
      · simp [clusterGoT, clusterGo, h, ih]
      · simp [clusterGoT, clusterGo, h, ih]

theorem clusterGoT_trace_bound (eps : ℚ) (_heps : 0 ≤ eps) :
    ∀ (vs acc : List ℚ) (tr : List (ℚ × ℚ)),
      List.Sorted (· ≤ ·) vs →
      (∀ v ∈ vs, ∀ c ∈ acc.head?, c ≤ v) →
      (∀ p ∈ tr, |p.1 - p.2| ≤ eps) →
      ∀ p ∈ (clusterGoT eps vs acc tr).2, |p.1 - p.2| ≤ eps := by
  intro vs
  induction vs with
  | nil => intro acc tr _ _ htr; simpa [clusterGoT] using htr
  | cons v vs ih =>
    intro acc tr hsort hlb htr
    have hsort' := hsort.of_cons
    have hvw := List.rel_of_sorted_cons hsort
    cases acc with
    | nil =>
      rw [show clusterGoT eps (v :: vs) [] tr = clusterGoT eps vs [v] tr from rfl]
      refine ih [v] tr hsort' ?_ htr
      intro w hw c hc
      simp at hc
      subst hc
      exact hvw w hw
    | cons c cs =>
      have hcv : c ≤ v := hlb v (by simp) c (by simp)
      by_cases h : eps < v - c
      · rw [show clusterGoT eps (v :: vs) (c :: cs) tr
            = clusterGoT eps vs (v :: c :: cs) tr from by simp [clusterGoT, h]]
        refine ih (v :: c :: cs) tr hsort' ?_ htr
        intro w hw c' hc'
        simp at hc'
        subst hc'
        exact hvw w hw
      · rw [show clusterGoT eps (v :: vs) (c :: cs) tr
            = clusterGoT eps vs ((c + v) / 2 :: cs) ((v, c) :: tr) from by
          simp [clusterGoT, h]]
        refine ih ((c + v) / 2 :: cs) ((v, c) :: tr) hsort' ?_ ?_
        · intro w hw c' hc'
          simp at hc'
          subst hc'
          have hvwle : v ≤ w := hvw w hw
          linarith
        · intro p hp
          rcases List.mem_cons.mp hp with h1 | h1
          · subst h1
            have h2 : v - c ≤ eps := by linarith [not_lt.mp h]
            have h3 : (0 : ℚ) ≤ v - c := by linarith
            simpa [abs_of_nonneg h3] using h2
          · exact htr p h1

/-- Counterexample for C3: with the clustering tolerance EPS = 3 the
input list [0, 3, 9/2, 6, 15/2, 9] collapses to the single cluster 15/2,
so the input value 0 was folded into that cluster yet lies at distance
15/2 from its centroid, more than EPS: centroid drift breaks the
within-EPS part of the claim. -/
theorem c3_counterexample :
    clusterValues [0, 3, 9/2, 6, 15/2, 9] EPS = [15/2] ∧
    (0 : ℚ) ∈ [0, 3, 9/2, 6, 15/2, 9] ∧
    ¬ |(0 : ℚ) - 15/2| ≤ EPS := by
  refine ⟨?_, by simp, ?_⟩
  · norm_num +decide [clusterValues, sortQ, clusterGo, List.insertionSort,
      List.orderedInsert, EPS]
  · rw [show |(0 : ℚ) - 15/2| = 15/2 by
      rw [abs_sub_comm]
      simpa using abs_of_pos (by norm_num : (0 : ℚ) < 15/2)]
    norm_num [EPS]

/-- C3 as corrected: clusterValues is deterministic, permutations of the
input yield the same cluster list; and every input value lies within eps
of the centroid of its cluster at the moment it is folded in (recorded by
the fold trace of clusterValuesT, whose cluster list agrees with
clusterValues).  The final centroid may drift by more than eps from a
value folded earlier, as the counterexample shows. -/
theorem c3_cluster_determinism_and_fold_proximity :
    (∀ (l1 l2 : List ℚ) (eps : ℚ), l1.Perm l2 →
        clusterValues l1 eps = clusterValues l2 eps) ∧
    (∀ (vals : List ℚ) (eps : ℚ),
        (clusterValuesT vals eps).1 = clusterValues vals eps) ∧
    (∀ (vals : List ℚ) (eps : ℚ), 0 ≤ eps →
        ∀ p ∈ (clusterValuesT vals eps).2, |p.1 - p.2| ≤ eps) := by
  refine ⟨?_, ?_, ?_⟩
  · intro l1 l2 eps h
    unfold clusterValues
    rw [sortQ_perm_eq h]
  · intro vals eps
    unfold clusterValuesT clusterValues
    rcases hs : sortQ vals with _ | ⟨v, vs⟩
    · rfl
    · exact clusterGoT_fst eps vs [v] []
  · intro vals eps heps p hp
    unfold clusterValuesT at hp
    rcases hs : sortQ vals with _ | ⟨v, vs⟩
    · rw [hs] at hp
      simp at hp
    · rw [hs] at hp
      have hsorted : List.Sorted (· ≤ ·) (sortQ vals) :=
        List.sorted_insertionSort _ _
      rw [hs] at hsorted
      refine clusterGoT_trace_bound eps heps vs [v] [] hsorted.of_cons ?_
        (by simp) p hp
      intro w hw c hc
      simp at hc
      subst hc
      exact List.rel_of_sorted_cons hsorted w hw

/-- Witness for C3: determinism on a concrete transposition, and the
fold-time proximity bound on a concrete fold. -/
theorem c3_cluster_determinism_and_fold_proximity_witness :
    clusterValues [(1 : ℚ), 2] 3 = clusterValues [2, 1] 3 ∧
    |(2 : ℚ) - 0| ≤ 3 := by
  constructor
  · exact c3_cluster_determinism_and_fold_proximity.1 [1, 2] [2, 1] 3
      (List.Perm.swap 2 1 [])
  · refine c3_cluster_determinism_and_fold_proximity.2.2 [0, 2] 3
      (by norm_num) (2, 0) ?_
    norm_num +decide [clusterValuesT, sortQ, clusterGoT, List.insertionSort,
      List.orderedInsert]

theorem clusterGo_eq_foldPW (eps : ℚ) :
    ∀ (vs cs : List ℚ) (c : ℚ),
      clusterGo eps vs (c :: cs)
        = vs.foldl (clusterStepPW eps) ((c :: cs).reverse) := by
  intro vs
  induction vs with
  | nil => intro cs c; simp [clusterGo]
  | cons v vs ih =>
    intro cs c
    rw [List.foldl_cons]
    by_cases h : eps < v - c
    · have h2 : clusterStepPW eps ((c :: cs).reverse) v = (v :: c :: cs).reverse := by
        unfold clusterStepPW
        rw [List.reverse_cons, List.getLast?_concat]
        simp only [if_pos h]
        simp [List.reverse_cons]
      rw [show clusterGo eps (v :: vs) (c :: cs) = clusterGo eps vs (v :: c :: cs)
          from by simp [clusterGo, h]]
      rw [ih (c :: cs) v, h2]
    · have h2 : clusterStepPW eps ((c :: cs).reverse) v
          = ((c + v) / 2 :: cs).reverse := by
        unfold clusterStepPW
        rw [List.reverse_cons, List.getLast?_concat]
        simp only [if_neg h]
        rw [List.dropLast_concat]
        simp [List.reverse_cons]
      rw [show clusterGo eps (v :: vs) (c :: cs)
          = clusterGo eps vs ((c + v) / 2 :: cs) from by simp [clusterGo, h]]
      rw [ih cs ((c + v) / 2), h2]

/-- Counterexample for C4: on the input [0, 2, 2] with tolerance 3 the
code produces the single cluster 3/2 (averaging the current centroid with
each new value pairwise: 0, then 1, then 3/2), while the running average
of all three members of the single cluster is 4/3.  The centroid is
therefore not the running average of the cluster members. -/
theorem c4_counterexample :
    clusterValues [0, 2, 2] 3 = [3/2] ∧
    clusterValuesSpecRA [0, 2, 2] 3 = [4/3] ∧
    (3/2 : ℚ) ≠ 4/3 := by
  refine ⟨?_, ?_, by norm_num⟩
  · norm_num +decide [clusterValues, sortQ, clusterGo, List.insertionSort,
      List.orderedInsert]
  · norm_num +decide [clusterValuesSpecRA, sortQ, List.insertionSort,
      List.orderedInsert]

/-- C4 as corrected: clusterValues sorts its input ascending and then,
for each next value, starts a new cluster exactly when the value exceeds
the current value of the last cluster by more than the tolerance, and
otherwise replaces that cluster value by the average of the current
cluster value and the new value (a pairwise average with the previous
centroid, not the running average of all members).  Formally, the
reversed-accumulator loop of the code equals the direct fold
clusterValuesPW of exactly that description. -/
theorem c4_cluster_pairwise_average (vals : List ℚ) (eps : ℚ) :
    clusterValues vals eps = clusterValuesPW vals eps := by
  unfold clusterValues clusterValuesPW
  rcases hs : sortQ vals with _ | ⟨v, vs⟩
  · simp
  · rw [List.foldl_cons]
    have h0 : clusterStepPW eps [] v = [v] := rfl
    rw [h0]
    have h1 := clusterGo_eq_foldPW eps vs [] v
    simpa using h1

theorem clusterGo_chain (eps : ℚ) :
    ∀ (vs acc : List ℚ),
      List.Sorted (· ≤ ·) vs →
      (∀ v ∈ vs, ∀ c ∈ acc.head?, c ≤ v) →
      List.Chain' (fun a b => b + eps < a) acc →
      List.Chain' (fun a b => a + eps < b) (clusterGo eps vs acc) := by
  intro vs
  induction vs with
  | nil =>
    intro acc _ _ hch
    rw [show clusterGo eps [] acc = acc.reverse from rfl]
    exact List.chain'_reverse.mpr hch
  | cons v vs ih =>
    intro acc hsort hlb hch
    have hsort' := hsort.of_cons
    have hvw := List.rel_of_sorted_cons hsort
    cases acc with
    | nil =>
      rw [show clusterGo eps (v :: vs) [] = clusterGo eps vs [v] from rfl]
      refine ih [v] hsort' ?_ (by simp)
      intro w hw c hc
      simp at hc
      subst hc
      exact hvw w hw
    | cons c cs =>
      have hcv : c ≤ v := hlb v (by simp) c (by simp)
      by_cases h : eps < v - c
      · rw [show clusterGo eps (v :: vs) (c :: cs) = clusterGo eps vs (v :: c :: cs)
            from by simp [clusterGo, h]]
        refine ih (v :: c :: cs) hsort' ?_ ?_
        · intro w hw c' hc'
          simp at hc'
          subst hc'
          exact hvw w hw
        · exact List.Chain'.cons (by linarith) hch
      · rw [show clusterGo eps (v :: vs) (c :: cs)
            = clusterGo eps vs ((c + v) / 2 :: cs) from by simp [clusterGo, h]]
        refine ih ((c + v) / 2 :: cs) hsort' ?_ ?_
        · intro w hw c' hc'
          simp at hc'
          subst hc'
          have hvwle : v ≤ w := hvw w hw
          linarith
        · cases cs with
          | nil => simp
          | cons c2 cs' =>
            have h12 : c2 + eps < c := (List.chain'_cons.mp hch).1
            exact List.Chain'.cons (by linarith) (List.chain'_cons.mp hch).2

/-- C8: for every input list and positive tolerance, the cluster list
returned by clusterValues is sorted ascending, and every two adjacent
cluster values differ by more than the tolerance (the later exceeds the
earlier by more than eps), so no two clusters collapse. -/
theorem c8_grid_sorted_separated (vals : List ℚ) (eps : ℚ) (heps : 0 < eps) :
    List.Sorted (· ≤ ·) (clusterValues vals eps) ∧
    List.Chain' (fun a b => a + eps < b) (clusterValues vals eps) := by
  have hch : List.Chain' (fun a b => a + eps < b) (clusterValues vals eps) := by
    unfold clusterValues
    rcases hs : sortQ vals with _ | ⟨v, vs⟩
    · simp
    · have hsorted : List.Sorted (· ≤ ·) (sortQ vals) :=
        List.sorted_insertionSort _ _
      rw [hs] at hsorted
      refine clusterGo_chain eps vs [v] hsorted.of_cons ?_ (by simp)
      intro w hw c hc
      simp at hc
      subst hc
      exact List.rel_of_sorted_cons hsorted w hw
  refine ⟨?_, hch⟩
  have hlt : List.Chain' (· < ·) (clusterValues vals eps) :=
    hch.imp fun a b hab => by linarith
  have hpair : List.Pairwise (· < ·) (clusterValues vals eps) :=
    List.chain'_iff_pairwise.mp hlt
  exact hpair.imp fun hab => le_of_lt hab

/-- Witness for C8 on a concrete two-cluster input. -/
theorem c8_grid_sorted_separated_witness :
    List.Sorted (· ≤ ·) (clusterValues [(0 : ℚ), 10] 3) ∧
    List.Chain' (fun a b : ℚ => a + 3 < b) (clusterValues [(0 : ℚ), 10] 3) :=
  c8_grid_sorted_separated [0, 10] 3 (by norm_num)

-- ══════════════════════════════════════════════════════════════
--  Claims C1 and C10: the numeric fallback detector
-- ══════════════════════════════════════════════════════════════

theorem foldl_assignStepQ_getD_pres (cols : List (Option ℚ)) (c : ℕ) :
    ∀ (nums : List Item) (init : List (List Char)),
      (∀ it ∈ nums, bestColumn cols (it.x + it.w / 2) ≠ some c) →
      (nums.foldl (assignStepQ cols) init).getD c [] = init.getD c [] := by
  intro nums
  induction nums with
  | nil => intro init _; rfl
  | cons it nums ih =>
    intro init hno
    rw [List.foldl_cons]
    rw [ih (assignStepQ cols init it)
      (fun x hx => hno x (List.mem_cons_of_mem _ hx))]
    unfold assignStepQ
    rcases hb : bestColumn cols (it.x + it.w / 2) with _ | c'
    · rfl
    · have hc' : c' ≠ c := by
        intro he
        exact hno it (by simp) (by rw [hb, he])
      rw [List.getD_eq_getElem?_getD, List.getElem?_set_ne hc',
        ← List.getD_eq_getElem?_getD]

theorem foldl_assignStepQ_length (cols : List (Option ℚ)) :
    ∀ (nums : List Item) (init : List (List Char)),
      (nums.foldl (assignStepQ cols) init).length = init.length := by
  intro nums
  induction nums with
  | nil => intro init; rfl
  | cons it nums ih =>
    intro init
    rw [List.foldl_cons, ih]
    unfold assignStepQ
    rcases bestColumn cols (it.x + it.w / 2) with _ | c'
    · rfl
    · simp

/-- C1: on the scenario of the claim (header labels resolving to the
midpoints 100, 160, 220, 280, 360 and a value line with recognized
numbers at midpoints 100, 220, 280, 360 only), detectQuarterTable
assigns the values by proximity, leaving the 2T column as the empty
string without shifting the later values left; and in general a column
that no numeric item of the value line is assigned to keeps the empty
string. -/
theorem c1_no_column_shift :
    detectQuarterTable c1Lines = some ⟨0, 1,
      ["6.357,63".data, [], "6.816,40".data, "6.626,67".data, "26.202,82".data],
      [some 100, some 160, some 220, some 280, some 360]⟩ ∧
    (∀ (cols : List (Option ℚ)) (nums : List Item) (c : ℕ),
      (∀ it ∈ nums, bestColumn cols (it.x + it.w / 2) ≠ some c) →
      (assignValues cols nums).getD c [] = ([] : List Char)) := by
  constructor
  · norm_num +decide [detectQuarterTable, detectQuarterTableGo, tryQuarterAt,
      c1Lines, c1HeaderLine, c1ImportesLine, buildLineText, buildLineTextGo,
      sortByX, List.insertionSort, List.orderedInsert, normalizePdfText,
      collapseWs, collapseWsGo, trimWs, isWsChar, isCtrlChar, quarterHeaderTest,
      hasTokenChain, findWordTokenCI, QUARTER_LABELS, startsWithCI, charEqCI,
      toUpperChar, isWordChar, headerColMidX, upperCI, firstNonEmptyLine,
      importesTest, isEuropeanNumber, euroBody, euroGroups, euroTail,
      isDigitChar, assignValues, assignStepQ, bestColumn, bestColumnGo,
      LINE_GAP]
  · intro cols nums c hno
    unfold assignValues
    rw [foldl_assignStepQ_getD_pres cols c nums _ hno]
    rcases c with _ | _ | _ | _ | _ | c <;> simp

/-- Witness for C1: the general unfilled-column conclusion applied to the
empty numeric-item list. -/
theorem c1_no_column_shift_witness :
    (∀ it ∈ ([] : List Item), bestColumn [] (it.x + it.w / 2) ≠ some 0) ∧
    (assignValues [] []).getD 0 [] = ([] : List Char) :=
  ⟨by simp, c1_no_column_shift.2 [] [] 0 (by simp)⟩

/-- C10: each output column of detectQuarterTable holds at most one
value.  On the concrete scenario with two recognized numbers at midpoints
95 and 105, both nearest the 1T column at midpoint 100, the later number
222,22 overwrites the earlier 111,11, which appears nowhere in the output
values.  In general, when an item is assigned column c and no later item
of the value line is assigned column c, the output at c is exactly that
item's normalized text, so any earlier value written there is dropped. -/
theorem c10_column_overwrite :
    detectQuarterTable c10Lines = some ⟨0, 1,
      ["222,22".data, [], [], [], []],
      [some 100, some 160, some 220, some 280, some 360]⟩ ∧
    "111,11".data ∉
      (["222,22".data, [], [], [], []] : List (List Char)) ∧
    (∀ (cols : List (Option ℚ)) (pre post : List Item) (it : Item) (c : ℕ),
      bestColumn cols (it.x + it.w / 2) = some c → c < 5 →
      (∀ it2 ∈ post, bestColumn cols (it2.x + it2.w / 2) ≠ some c) →
      (assignValues cols (pre ++ it :: post)).getD c []
        = normalizePdfText it.str) := by
  refine ⟨?_, by decide, ?_⟩
  · norm_num +decide [detectQuarterTable, detectQuarterTableGo, tryQuarterAt,
      c10Lines, c1HeaderLine, c10ImportesLine, buildLineText, buildLineTextGo,
      sortByX, List.insertionSort, List.orderedInsert, normalizePdfText,
      collapseWs, collapseWsGo, trimWs, isWsChar, isCtrlChar, quarterHeaderTest,
      hasTokenChain, findWordTokenCI, QUARTER_LABELS, startsWithCI, charEqCI,
      toUpperChar, isWordChar, headerColMidX, upperCI, firstNonEmptyLine,
      importesTest, isEuropeanNumber, euroBody, euroGroups, euroTail,
      isDigitChar, assignValues, assignStepQ, bestColumn, bestColumnGo,
      LINE_GAP]
  · intro cols pre post it c hb hc5 hno
    unfold assignValues
    rw [List.foldl_append, List.foldl_cons]
    rw [foldl_assignStepQ_getD_pres cols c post _ hno]
    have hlen : (pre.foldl (assignStepQ cols) [[], [], [], [], []]).length = 5 :=
      foldl_assignStepQ_length cols pre _
    rw [show assignStepQ cols (pre.foldl (assignStepQ cols) [[], [], [], [], []]) it
        = (pre.foldl (assignStepQ cols) [[], [], [], [], []]).set c
            (normalizePdfText it.str) from by unfold assignStepQ; rw [hb]]
    rw [List.getD_eq_getElem?_getD,
      List.getElem?_set_self (by rw [hlen]; exact hc5)]
    rfl

/-- Witness for C10: the overwrite conclusion at a concrete one-column
setup with one earlier and one later item aimed at column 0. -/
theorem c10_column_overwrite_witness :
    bestColumn [some 0] ((⟨"2".data, 0, 0, 0, 0⟩ : Item).x
        + (⟨"2".data, 0, 0, 0, 0⟩ : Item).w / 2) = some 0 ∧
    (assignValues [some 0]
        ([⟨"1".data, 0, 0, 0, 0⟩] ++ ⟨"2".data, 0, 0, 0, 0⟩ :: [])).getD 0 []
      = normalizePdfText "2".data := by
  constructor
  · norm_num +decide [bestColumn, bestColumnGo]
  · refine c10_column_overwrite.2.2 [some 0] [⟨"1".data, 0, 0, 0, 0⟩] []
      ⟨"2".data, 0, 0, 0, 0⟩ 0 ?_ (by norm_num) (by simp)
    norm_num +decide [bestColumn, bestColumnGo]

-- ══════════════════════════════════════════════════════════════
--  Claim C7: table minimum size
-- ══════════════════════════════════════════════════════════════

theorem floodStep_min_size (present : ℤ × ℤ → Bool) (rows cols : ℕ)
    (st : List (List (ℤ × ℤ)) × Finset (ℤ × ℤ)) (p : ℤ × ℤ)
    (hinv : ∀ reg ∈ st.1, 2 ≤ reg.length) :
    ∀ reg ∈ (floodStep present rows cols st p).1, 2 ≤ reg.length := by
  intro reg hreg
  simp only [floodStep] at hreg
  split at hreg
  · dsimp only at hreg
    split at hreg
    · rcases List.mem_append.mp hreg with h | h
      · exact hinv reg h
      · rename_i hlen
        rw [List.mem_singleton.mp h]
        exact hlen
    · exact hinv reg hreg
  · exact hinv reg hreg

theorem foldl_floodStep_min_size (present : ℤ × ℤ → Bool) (rows cols : ℕ) :
    ∀ (ps : List (ℤ × ℤ)) (st : List (List (ℤ × ℤ)) × Finset (ℤ × ℤ)),
      (∀ reg ∈ st.1, 2 ≤ reg.length) →
      ∀ reg ∈ (ps.foldl (floodStep present rows cols) st).1, 2 ≤ reg.length := by
  intro ps
  induction ps with
  | nil => intro st h; exact h
  | cons p ps ih =>
    intro st h
    rw [List.foldl_cons]
    exact ih _ (floodStep_min_size present rows cols st p h)

theorem buildTables_length (xg yg : List ℚ) (items : List Item) :
    ∀ (regions : List (List (ℤ × ℤ))) (init : List Table × Finset ℕ),
      ((regions.foldl (buildTablesStep xg yg items) init).1).length
        = init.1.length + regions.length := by
  intro regions
  induction regions with
  | nil => intro init; simp
  | cons region regions ih =>
    intro init
    rw [List.foldl_cons, ih]
    unfold buildTablesStep
    simp
    omega

/-- C7: a flood-filled component of exactly one present cell is discarded
and never becomes a Table.  Every region kept by the scan has at least
two cells, the region loop produces exactly one Table per kept region,
and on a concrete page whose segments form a single ruled square the only
cell is present yet detectTables returns no table at all. -/
theorem c7_min_table_size :
    (∀ (present : ℤ × ℤ → Bool) (rows cols : ℕ),
        ∀ reg ∈ floodRegions present rows cols, 2 ≤ reg.length) ∧
    (∀ (xg yg : List ℚ) (items : List Item) (regions : List (List (ℤ × ℤ))),
        (buildTables xg yg items regions).1.length = regions.length) ∧
    (detectTables c7SquareSegs [] = ⟨[], ∅, 2, 2, [0, 10], [0, 10]⟩ ∧
     presentCell (splitSegs c7SquareSegs).1 (splitSegs c7SquareSegs).2
       [0, 10] [0, 10] 0 0 = true) := by
  refine ⟨?_, ?_, ?_, ?_⟩
  · intro present rows cols reg hreg
    exact foldl_floodStep_min_size present rows cols _ ([], ∅) (by simp) reg hreg
  · intro xg yg items regions
    unfold buildTables
    rw [buildTables_length]
    simp
  · norm_num +decide [detectTables, c7SquareSegs, splitSegs, near, EPS,
      EDGE_EPS, min_def, max_def, clusterValues, sortQ, clusterGo,
      List.insertionSort, List.orderedInsert, floodRegions, floodStep, bfsGo,
      pushNeighbor, neighborsOf, inGridRange, presentCell, hasHEdge, hasVEdge,
      edgeCovers, edgeCoversGo, sortByA, buildTables, buildTablesStep,
      buildTable, regionBounds, enumFrom, List.range_succ, List.range_zero,
      List.getElem?_cons_zero, List.getElem?_cons_succ, List.getElem?_nil,
      Option.getD, Int.toNat_zero, Int.toNat_one, Int.toNat_natCast]
  · norm_num +decide [c7SquareSegs, splitSegs, near, EPS, EDGE_EPS, min_def,
      max_def, presentCell, hasHEdge, hasVEdge, edgeCovers, edgeCoversGo,
      sortByA, List.insertionSort, List.orderedInsert]

/-- Witness for C7: the minimum-size conclusion on a concrete grid whose
two present cells form one region. -/
theorem c7_min_table_size_witness :
    [((0 : ℤ), (0 : ℤ)), (0, 1)] ∈
      floodRegions (fun p => decide (p = (0, 0) ∨ p = (0, 1))) 1 2 ∧
    2 ≤ ([((0 : ℤ), (0 : ℤ)), (0, 1)]).length := by
  have hmem : [((0 : ℤ), (0 : ℤ)), (0, 1)] ∈
      floodRegions (fun p => decide (p = (0, 0) ∨ p = (0, 1))) 1 2 := by
    norm_num +decide [floodRegions, floodStep, bfsGo, pushNeighbor,
      neighborsOf, inGridRange]
  exact ⟨hmem, c7_min_table_size.1 _ 1 2 _ hmem⟩

-- ══════════════════════════════════════════════════════════════
--  Claim C6: glyph exclusivity
-- ══════════════════════════════════════════════════════════════

theorem groupIntoLinesGo_mem :
    ∀ (rest : List Item) (cur : QLine) (acc : List QLine),
      ∀ l ∈ groupIntoLinesGo rest cur acc, ∀ it ∈ l.items,
        (∃ l' ∈ acc, it ∈ l'.items) ∨ it ∈ cur.items ∨ it ∈ rest := by
  intro rest
  induction rest with
  | nil =>
    intro cur acc l hl it hit
    rcases List.mem_append.mp hl with h | h
    · exact Or.inl ⟨l, h, hit⟩
    · rw [List.mem_singleton.mp h] at hit
      exact Or.inr (Or.inl hit)
  | cons it0 rest ih =>
    intro cur acc l hl it hit
    simp only [groupIntoLinesGo] at hl
    split at hl
    · rcases ih ⟨cur.y, cur.items ++ [it0]⟩ acc l hl it hit with h | h | h
      · exact Or.inl h
      · simp only [List.mem_append, List.mem_singleton] at h
        rcases h with h | h
        · exact Or.inr (Or.inl h)
        · exact Or.inr (Or.inr (by simp [h]))
      · exact Or.inr (Or.inr (by simp [h]))
    · rcases ih ⟨it0.y, [it0]⟩ (acc ++ [cur]) l hl it hit with h | h | h
      · rcases h with ⟨l', hl', hit'⟩
        rcases List.mem_append.mp hl' with h2 | h2
        · exact Or.inl ⟨l', h2, hit'⟩
        · rw [List.mem_singleton.mp h2] at hit'
          exact Or.inr (Or.inl hit')
      · simp only [List.mem_singleton] at h
        exact Or.inr (Or.inr (by simp [h]))
      · exact Or.inr (Or.inr (by simp [h]))

theorem groupIntoLines_mem (items : List Item) :
    ∀ l ∈ groupIntoLines items, ∀ it ∈ l.items, it ∈ items := by
  intro l hl it hit
  unfold groupIntoLines at hl
  rcases hs : List.insertionSort ltYX items with _ | ⟨it0, rest⟩
  · rw [hs] at hl
    simp at hl
  · rw [hs] at hl
    have hmem := groupIntoLinesGo_mem rest ⟨it0.y, [it0]⟩ [] l hl it hit
    have hsub : it ∈ List.insertionSort ltYX items → it ∈ items :=
      fun h => (List.perm_insertionSort ltYX items).subset h
    rcases hmem with h | h | h
    · simp at h
    · simp only [List.mem_singleton] at h
      exact hsub (by rw [hs, h]; simp)
    · exact hsub (by rw [hs]; simp [h])

theorem enumFrom_mem {α : Type} :
    ∀ (l : List α) (n i : ℕ) (a : α),
      (i, a) ∈ enumFrom n l → ∃ k, i = n + k ∧ l[k]? = some a := by
  intro l
  induction l with
  | nil => intro n i a h; simp [enumFrom] at h
  | cons b l ih =>
    intro n i a h
    rcases List.mem_cons.mp h with h1 | h1
    · refine ⟨0, ?_, ?_⟩
      · simpa using congrArg Prod.fst h1
      · have : a = b := by simpa using congrArg Prod.snd h1
        simp [this]
    · rcases ih (n + 1) i a h1 with ⟨k, hk, hget⟩
      exact ⟨k + 1, by omega, by simpa using hget⟩

theorem freeItems_mem (items : List Item) (used : Finset ℕ) (g : Item)
    (h : g ∈ freeItems items used) : ∃ i, i ∉ used ∧ items[i]? = some g := by
  unfold freeItems at h
  rcases List.mem_map.mp h with ⟨p, hp, hsnd⟩
  rcases List.mem_filter.mp hp with ⟨hpmem, hpfree⟩
  rcases enumFrom_mem items 0 p.1 p.2 (by simpa using hpmem) with ⟨k, hk, hget⟩
  refine ⟨p.1, by simpa using hpfree, ?_⟩
  rw [show p.1 = k from by omega, hget, hsnd]

theorem used_not_in_lines (items : List Item) (used : Finset ℕ)
    (hnd : items.Nodup) (idx : ℕ) (g : Item)
    (hused : idx ∈ used) (hget : items[idx]? = some g) :
    ∀ l ∈ groupIntoLines (freeItems items used), g ∉ l.items := by
  intro l hl hit
  have hfree : g ∈ freeItems items used :=
    groupIntoLines_mem (freeItems items used) l hl g hit
  rcases freeItems_mem items used g hfree with ⟨i, hi, hgeti⟩
  rcases List.getElem?_eq_some.mp hget with ⟨hidx, hgidx⟩
  rcases List.getElem?_eq_some.mp hgeti with ⟨hilt, hgi⟩
  have : i = idx := by
    refine (@List.Nodup.getElem_inj_iff Item items hnd i hilt idx hidx).mp ?_
    rw [hgidx, hgi]
  rw [this] at hi
  exact hi hused

theorem mem_setCell {grid : List (List (List Item))} {r c : ℕ} {it x : Item}
    (h : x ∈ (setCell grid r c it).flatten.flatten) :
    x ∈ grid.flatten.flatten ∨ x = it := by
  unfold setCell at h
  rcases List.mem_flatten.mp h with ⟨cell, hcell, hx⟩
  rcases List.mem_flatten.mp hcell with ⟨row, hrow, hc⟩
  have hrowD : r < grid.length → grid.getD r [] ∈ grid := by
    intro hr
    rw [List.getD_eq_getElem?_getD, List.getElem?_eq_getElem hr]
    exact List.getElem_mem hr
  have hcellD : ∀ row0 : List (List Item), c < row0.length →
      row0.getD c [] ∈ row0 := by
    intro row0 hcl
    rw [List.getD_eq_getElem?_getD, List.getElem?_eq_getElem hcl]
    exact List.getElem_mem hcl
  have holdcell : x ∈ (grid.getD r []).getD c [] → x ∈ grid.flatten.flatten := by
    intro hx'
    by_cases hr : r < grid.length
    · by_cases hcl : c < (grid.getD r []).length
      · exact List.mem_flatten.mpr ⟨(grid.getD r []).getD c [],
          List.mem_flatten.mpr ⟨grid.getD r [], hrowD hr, hcellD _ hcl⟩, hx'⟩
      · rw [List.getD_eq_getElem?_getD (grid.getD r []),
          List.getElem?_eq_none (by omega), Option.getD_none] at hx'
        simp at hx'
    · rw [List.getD_eq_getElem?_getD grid,
        List.getElem?_eq_none (by omega), Option.getD_none] at hx'
      simp at hx'
  rcases List.mem_or_eq_of_mem_set hrow with hrow' | hrow'
  · exact Or.inl (List.mem_flatten.mpr ⟨cell,
      List.mem_flatten.mpr ⟨row, hrow', hc⟩, hx⟩)
  · subst hrow'
    rcases List.mem_or_eq_of_mem_set hc with hc' | hc'
    · by_cases hr : r < grid.length
      · exact Or.inl (List.mem_flatten.mpr ⟨cell,
          List.mem_flatten.mpr ⟨grid.getD r [], hrowD hr, hc'⟩, hx⟩)
      · rw [List.getD_eq_getElem?_getD grid,
          List.getElem?_eq_none (by omega), Option.getD_none] at hc'
        simp at hc'
    · subst hc'
      rcases List.mem_append.mp hx with hx' | hx'
      · exact Or.inl (holdcell hx')
      · exact Or.inr (List.mem_singleton.mp hx')

theorem assignStep_cases (xg yg : List ℚ) (rMin rMax cMin cMax : ℕ)
    (st : List (List (List Item)) × Finset ℕ) (p : ℕ × Item) :
    (assignStep xg yg rMin rMax cMin cMax st p = st) ∨
    (p.1 ∉ st.2 ∧ ∃ rc : ℕ × ℕ,
      assignStep xg yg rMin rMax cMin cMax st p
        = (setCell st.1 (rc.1 - rMin) (rc.2 - cMin) p.2, insert p.1 st.2)) := by
  simp only [assignStep]
  split
  · exact Or.inl rfl
  · rename_i h1
    split
    · exact Or.inl rfl
    · rcases hf : findCell xg yg rMin rMax cMin cMax (p.2.x + p.2.w / 2)
          (p.2.y + p.2.h / 2) with _ | rc
      · exact Or.inl rfl
      · exact Or.inr ⟨h1, rc, rfl⟩

theorem assignStep_used_mono (xg yg : List ℚ) (rMin rMax cMin cMax : ℕ)
    (st : List (List (List Item)) × Finset ℕ) (p : ℕ × Item) :
    st.2 ⊆ (assignStep xg yg rMin rMax cMin cMax st p).2 := by
  rcases assignStep_cases xg yg rMin rMax cMin cMax st p with h | ⟨_, rc, h⟩
  · rw [h]
  · rw [h]
    exact fun x hx => Finset.mem_insert_of_mem hx

theorem foldl_assignStep_used_mono (xg yg : List ℚ) (rMin rMax cMin cMax : ℕ) :
    ∀ (en : List (ℕ × Item)) (st : List (List (List Item)) × Finset ℕ),
      st.2 ⊆ (en.foldl (assignStep xg yg rMin rMax cMin cMax) st).2 := by
  intro en
  induction en with
  | nil => intro st x hx; exact hx
  | cons p en ih =>
    intro st x hx
    rw [List.foldl_cons]
    exact ih _ (assignStep_used_mono xg yg rMin rMax cMin cMax st p hx)

theorem foldl_assignStep_prov (xg yg : List ℚ) (rMin rMax cMin cMax : ℕ) :
    ∀ (en : List (ℕ × Item)) (st : List (List (List Item)) × Finset ℕ) (g : Item),
      g ∈ ((en.foldl (assignStep xg yg rMin rMax cMin cMax) st).1).flatten.flatten →
      g ∈ st.1.flatten.flatten ∨
        ∃ idx, (idx, g) ∈ en ∧ idx ∉ st.2 ∧
          idx ∈ (en.foldl (assignStep xg yg rMin rMax cMin cMax) st).2 := by
  intro en
  induction en with
  | nil => intro st g h; exact Or.inl h
  | cons p en ih =>
    intro st g h
    rw [List.foldl_cons] at h
    rcases ih (assignStep xg yg rMin rMax cMin cMax st p) g h with h1 | h1
    · rcases assignStep_cases xg yg rMin rMax cMin cMax st p with hs | ⟨hfree, rc, hs⟩
      · rw [hs] at h1
        exact Or.inl h1
      · rw [hs] at h1
        rcases mem_setCell h1 with h2 | h2
        · exact Or.inl h2
        · subst h2
          refine Or.inr ⟨p.1, by simp, hfree, ?_⟩
          rw [List.foldl_cons]
          refine foldl_assignStep_used_mono xg yg rMin rMax cMin cMax en _ ?_
          rw [hs]
          exact Finset.mem_insert_self p.1 st.2
    · rcases h1 with ⟨idx, hidx, hnotin, hfin⟩
      refine Or.inr ⟨idx, List.mem_cons_of_mem p hidx, ?_,
        by rw [List.foldl_cons]; exact hfin⟩
      intro hin
      exact hnotin (assignStep_used_mono xg yg rMin rMax cMin cMax st p hin)

theorem grid0_flatten_empty (tRows tCols : ℕ) :
    ((List.replicate tRows (List.replicate tCols ([] : List Item))).flatten.flatten)
      = [] := by
  rw [List.eq_nil_iff_forall_not_mem]
  intro x hx
  rcases List.mem_flatten.mp hx with ⟨cell, hcell, hx'⟩
  rcases List.mem_flatten.mp hcell with ⟨row, hrow, hc⟩
  rw [List.eq_of_mem_replicate hrow] at hc
  rw [List.eq_of_mem_replicate hc] at hx'
  simp at hx'

theorem buildTable_used_mono (xg yg : List ℚ) (items : List Item)
    (used : Finset ℕ) (region : List (ℤ × ℤ)) :
    used ⊆ (buildTable xg yg items used region).2 := by
  intro x hx
  dsimp only [buildTable]
  exact foldl_assignStep_used_mono _ _ _ _ _ _ (enumFrom 0 items) (_, used) hx

theorem buildTable_prov (xg yg : List ℚ) (items : List Item) (used : Finset ℕ)
    (region : List (ℤ × ℤ)) (g : Item)
    (h : g ∈ tableItems (buildTable xg yg items used region).1) :
    ∃ idx, (idx, g) ∈ enumFrom 0 items ∧ idx ∉ used ∧
      idx ∈ (buildTable xg yg items used region).2 := by
  dsimp only [buildTable, tableItems] at h ⊢
  rcases foldl_assignStep_prov _ _ _ _ _ _ (enumFrom 0 items) (_, used) g h
    with h1 | h1
  · rw [grid0_flatten_empty] at h1
    simp at h1
  · exact h1

theorem enumFrom_inj_of_nodup (items : List Item) (hnd : items.Nodup)
    {i j : ℕ} {g : Item} (hi : (i, g) ∈ enumFrom 0 items)
    (hj : (j, g) ∈ enumFrom 0 items) : i = j := by
  rcases enumFrom_mem items 0 i g hi with ⟨k, hk, hgk⟩
  rcases enumFrom_mem items 0 j g hj with ⟨k2, hk2, hgk2⟩
  rcases List.getElem?_eq_some.mp hgk with ⟨h1, e1⟩
  rcases List.getElem?_eq_some.mp hgk2 with ⟨h2, e2⟩
  have : k = k2 :=
    (@List.Nodup.getElem_inj_iff Item items hnd k h1 k2 h2).mp (by rw [e1, e2])
  omega

theorem foldl_buildTablesStep_inv (xg yg : List ℚ) (items : List Item)
    (hnd : items.Nodup) :
    ∀ (regions : List (List (ℤ × ℤ))) (init : List Table × Finset ℕ),
      (∀ t ∈ init.1, ∀ g ∈ tableItems t,
          ∃ idx, (idx, g) ∈ enumFrom 0 items ∧ idx ∈ init.2) →
      List.Pairwise (fun t1 t2 => ∀ g ∈ tableItems t1, g ∉ tableItems t2) init.1 →
      (∀ t ∈ (regions.foldl (buildTablesStep xg yg items) init).1,
          ∀ g ∈ tableItems t, ∃ idx, (idx, g) ∈ enumFrom 0 items ∧
            idx ∈ (regions.foldl (buildTablesStep xg yg items) init).2) ∧
      List.Pairwise (fun t1 t2 => ∀ g ∈ tableItems t1, g ∉ tableItems t2)
        (regions.foldl (buildTablesStep xg yg items) init).1 := by
  intro regions
  induction regions with
  | nil => intro init h1 h2; exact ⟨h1, h2⟩
  | cons region regions ih =>
    intro init h1 h2
    rw [List.foldl_cons]
    have hstep : buildTablesStep xg yg items init region
        = (init.1 ++ [(buildTable xg yg items init.2 region).1],
           (buildTable xg yg items init.2 region).2) := rfl
    refine ih (buildTablesStep xg yg items init region) ?_ ?_
    · intro t ht g hg
      rw [hstep] at ht ⊢
      rcases List.mem_append.mp ht with h | h
      · rcases h1 t h g hg with ⟨idx, hidx, hin⟩
        exact ⟨idx, hidx, buildTable_used_mono xg yg items init.2 region hin⟩
      · rw [List.mem_singleton.mp h] at hg
        rcases buildTable_prov xg yg items init.2 region g hg with
          ⟨idx, hidx, _, hin⟩
        exact ⟨idx, hidx, hin⟩
    · rw [hstep]
      rw [List.pairwise_append]
      refine ⟨h2, by simp, ?_⟩
      intro a ha b hb g hga hgb
      rw [List.mem_singleton.mp hb] at hgb
      rcases h1 a ha g hga with ⟨idx, hidx, hin⟩
      rcases buildTable_prov xg yg items init.2 region g hgb with
        ⟨idx', hidx', hnotin, _⟩
      exact hnotin (by rw [enumFrom_inj_of_nodup items hnd hidx' hidx]; exact hin)

/-- C6: every glyph assigned to a table cell by detectTables is excluded
from every TextLine produced for the page (for pages whose glyph records
are pairwise distinct, so that a glyph record identifies its index), and
glyphs are assigned exclusively: a glyph stored in an earlier table's
cells never also appears in a later table's cells. -/
theorem c6_glyph_exclusivity (segments : List Seg) (textItems : List Item)
    (hnd : textItems.Nodup) :
    (∀ (idx : ℕ) (g : Item),
        idx ∈ (detectTables segments textItems).usedTextIndices →
        textItems[idx]? = some g →
        ∀ l ∈ pageLines segments textItems, g ∉ l.items) ∧
    List.Pairwise (fun t1 t2 => ∀ g ∈ tableItems t1, g ∉ tableItems t2)
      (detectTables segments textItems).tables := by
  constructor
  · intro idx g hused hget l hl
    exact used_not_in_lines textItems _ hnd idx g hused hget l hl
  · simp only [detectTables, buildTables]
    split
    · simp
    · split
      · simp
      · exact (foldl_buildTablesStep_inv _ _ textItems hnd _ ([], ∅)
          (by simp) (by simp)).2

set_option maxHeartbeats 3200000 in
/-- Witness for C6: on the concrete one-row two-column ruled page, glyph
A (index 0) is consumed by the detected table and does not appear in the
single free-text line, which holds only glyph Z. -/
theorem c6_glyph_exclusivity_witness :
    (0 : ℕ) ∈ (detectTables c6Segs c6Items).usedTextIndices ∧
    c6Item1 ∉ (QLine.mk 100 [c6Item2]).items := by
  have hused : (0 : ℕ) ∈ (detectTables c6Segs c6Items).usedTextIndices := by
    norm_num +decide [detectTables, c6Segs, c6Items, c6Item1, c6Item2,
      splitSegs, near, EPS, EDGE_EPS, min_def, max_def, clusterValues, sortQ,
      clusterGo, List.insertionSort, List.orderedInsert, floodRegions,
      floodStep, bfsGo, pushNeighbor, neighborsOf, inGridRange, presentCell,
      hasHEdge, hasVEdge, edgeCovers, edgeCoversGo, sortByA, buildTables,
      buildTablesStep, buildTable, regionBounds, enumFrom, assignStep,
      findCell, cellContains, setCell, List.range_succ, List.range_zero,
      List.getElem?_cons_zero, List.getElem?_cons_succ, List.getElem?_nil,
      Option.getD, Int.toNat_zero, Int.toNat_one, Int.toNat_natCast]
  refine ⟨hused, ?_⟩
  refine (c6_glyph_exclusivity c6Segs c6Items ?_).1 0 c6Item1 hused ?_
    (QLine.mk 100 [c6Item2]) ?_
  · simp [c6Items, c6Item1, c6Item2]
  · simp [c6Items]
  · norm_num +decide [pageLines, freeItems, groupIntoLines, groupIntoLinesGo,
      ltYX, List.insertionSort, List.orderedInsert, detectTables, c6Segs,
      c6Items, c6Item1, c6Item2, splitSegs, near, EPS, EDGE_EPS, min_def,
      max_def, clusterValues, sortQ, clusterGo, floodRegions, floodStep,
      bfsGo, pushNeighbor, neighborsOf, inGridRange, presentCell, hasHEdge,
      hasVEdge, edgeCovers, edgeCoversGo, sortByA, buildTables,
      buildTablesStep, buildTable, regionBounds, enumFrom, assignStep,
      findCell, cellContains, setCell, List.range_succ, List.range_zero,
      List.getElem?_cons_zero, List.getElem?_cons_succ, List.getElem?_nil,
      Option.getD, Int.toNat_zero, Int.toNat_one, Int.toNat_natCast]
